import Mathlib

/-!
# Verification of the Smart-Attendance identity store and recognition matcher

Shallow embedding of `backend.py`: the durable JSON-collection store
(`atomic_write_json` / `atomic_read_json`), id allocation (`get_next_roll`),
cosine-distance matching (`cosine_distance` / `recognize_face`), the alert
ledger cap (`generate_alert`), the pattern-shift check
(`check_pattern_changes`), deletion (`delete_student`), attendance cleanup
(`cleanup_database`), enrollment (`enroll_student`) and bulk upload
(`bulk_upload_students`).  Collections (Python dicts in insertion order) are
modelled as association lists; the filesystem effects relevant to each claim
are made explicit as state or step traces.
-/

namespace SmartAttendance

/-! ## Association-list primitives for the JSON dict collections -/

/-- Lookup by key, mirroring Python `d[k]` / `k in d`. -/
def lookupA {α : Type} (k : String) : List (String × α) → Option α
  | [] => none
  | p :: rest => if p.1 = k then some p.2 else lookupA k rest

/-- Python `d[k] = v`: replace in place when the key exists, else append. -/
def upsert {α : Type} (k : String) (v : α) : List (String × α) → List (String × α)
  | [] => [(k, v)]
  | p :: rest => if p.1 = k then (k, v) :: rest else p :: upsert k v rest

/-- Python `del d[k]` on a dict with unique keys. -/
def eraseA {α : Type} (k : String) : List (String × α) → List (String × α)
  | [] => []
  | p :: rest => if p.1 = k then eraseA k rest else p :: eraseA k rest

theorem lookupA_nil {α : Type} (k : String) : lookupA (α := α) k [] = none := rfl

theorem lookupA_upsert_self {α : Type} (k : String) (v : α) (l : List (String × α)) :
    lookupA k (upsert k v l) = some v := by
  induction l with
  | nil => simp [lookupA, upsert]
  | cons p rest ih =>
    by_cases h : p.1 = k
    · simp [upsert, h, lookupA]
    · simp only [upsert, if_neg h, lookupA, if_neg h]
      exact ih

theorem lookupA_upsert_ne {α : Type} {k k' : String} (hne : k' ≠ k) (v : α)
    (l : List (String × α)) : lookupA k' (upsert k v l) = lookupA k' l := by
  induction l with
  | nil => simp [lookupA, upsert, Ne.symm hne]
  | cons p rest ih =>
    by_cases h : p.1 = k
    · have h' : p.1 ≠ k' := fun hk => hne (hk ▸ h)
      simp [upsert, h, lookupA, Ne.symm hne, h']
    · simp only [upsert, if_neg h, lookupA]
      by_cases h' : p.1 = k'
      · simp [h']
      · simp only [if_neg h']
        exact ih

theorem lookupA_erase_self {α : Type} (k : String) (l : List (String × α)) :
    lookupA k (eraseA k l) = none := by
  induction l with
  | nil => rfl
  | cons p rest ih =>
    by_cases h : p.1 = k
    · simp only [eraseA, if_pos h]
      exact ih
    · simp only [eraseA, if_neg h, lookupA, if_neg h]
      exact ih

theorem lookupA_erase_ne {α : Type} {k k' : String} (hne : k' ≠ k)
    (l : List (String × α)) : lookupA k' (eraseA k l) = lookupA k' l := by
  induction l with
  | nil => rfl
  | cons p rest ih =>
    by_cases h : p.1 = k
    · have h' : p.1 ≠ k' := fun hk => hne (hk ▸ h)
      simp only [eraseA, if_pos h, lookupA, if_neg h']
      exact ih
    · simp only [eraseA, if_neg h, lookupA]
      by_cases h' : p.1 = k'
      · simp [h']
      · simp only [if_neg h']
        exact ih

/-! ## Durable collection store (`atomic_write_json` / `atomic_read_json`)

`atomic_write_json` serializes to `<name>.tmp`, then runs
`if path.exists(): path.unlink()` and finally `temp_path.replace(path)`.
We model the state of one collection file (committed bytes and temp bytes)
and the prefix of steps executed before a crash. -/

structure FileState where
  target : Option String
  temp : Option String
deriving DecidableEq

/-- Step 1 of `atomic_write_json`: `json.dump(data, f)` into the temp file. -/
def writeTempStep (d : String) (fs : FileState) : FileState :=
  { fs with temp := some d }

/-- Step 2 of `atomic_write_json`: `if path.exists(): path.unlink()`. -/
def unlinkStep (fs : FileState) : FileState :=
  if fs.target.isSome then { fs with target := none } else fs

/-- Step 3 of `atomic_write_json`: `temp_path.replace(path)`. -/
def replaceStep (fs : FileState) : FileState :=
  match fs.temp with
  | some d => { target := some d, temp := none }
  | none => fs

/-- Run `atomic_write_json` but crash after the first `k` of its three steps
(`k = 3` means the write completed). -/
def atomic_write_json_crash (d : String) (fs : FileState) (k : Nat) : FileState :=
  if k = 0 then fs
  else if k = 1 then writeTempStep d fs
  else if k = 2 then unlinkStep (writeTempStep d fs)
  else replaceStep (unlinkStep (writeTempStep d fs))

/-- `atomic_read_json`: a missing file yields the default value. -/
def atomic_read_json (fs : FileState) (dflt : String) : String :=
  fs.target.getD dflt

/-! ## `get_next_roll` -/

/-- Python `str.isdigit` restricted to ASCII decimal ids (the only ids the
system itself issues). -/
def isDigits (s : String) : Bool :=
  decide (s.length > 0) && s.toList.all Char.isDigit

/-- Python `int(...)` on a digit string. -/
def digitsVal (s : String) : Nat :=
  s.toList.foldl (fun a c => a * 10 + (c.toNat - 48)) 0

/-- Python `f"{n:03d}"` for a natural number. -/
def pad3 (n : Nat) : String :=
  if n < 10 then "00" ++ toString n
  else if n < 100 then "0" ++ toString n
  else toString n

/-- One enrolled student record (`students.json` value). -/
structure Student where
  roll : String
  name : String
  embeddings : List (List ℚ)
  image_paths : List String
  created_at : String
deriving DecidableEq

/-- One denormalized entry of `embeddings.json`. -/
structure EmbRec where
  roll : String
  name : String
  embeddings : List (List ℚ)
deriving DecidableEq

/-- `get_next_roll`: scan the records' `roll` fields, keep the numeric ones,
return max+1 zero-padded to width 3, or `"001"` when there are none. -/
def get_next_roll (students : List (String × Student)) : String :=
  if students = [] then "001"
  else
    let rolls := ((students.map (fun p => p.2.roll)).filter isDigits).map digitsVal
    if rolls = [] then "001"
    else pad3 (rolls.foldl max 0 + 1)

/-- The spec's reading of id allocation: the maximum over the numeric ids
plus one, zero-padded to width 3, or `"001"` when no numeric id exists. -/
def nextIdSpec (students : List (String × Student)) : String :=
  let rolls := ((students.map (fun p => p.2.roll)).filter isDigits).map digitsVal
  match rolls.max? with
  | none => "001"
  | some m => pad3 (m + 1)

theorem foldl_max_shift (l : List Nat) (a b : Nat) :
    l.foldl max (max a b) = max a (l.foldl max b) := by
  induction l generalizing b with
  | nil => rfl
  | cons x xs ih =>
    simp only [List.foldl_cons]
    rw [max_assoc, ih]

theorem foldl_max_eq_max? (l : List Nat) (m : Nat) (h : l.max? = some m) :
    l.foldl max 0 = m := by
  cases l with
  | nil => simp [List.max?] at h
  | cons x xs =>
    simp only [List.max?] at h
    have h0 : max 0 x = x := Nat.max_eq_right (Nat.zero_le x)
    simp only [List.foldl_cons, h0]
    exact Option.some_injective _ h

/-! ## Alert ledger (`generate_alert`)

`generate_alert` appends the new alert record, truncates to the last 100
(`alerts = alerts[-100:]` when `len(alerts) > 100`) and persists.  The cap
logic never inspects the record, so it is stated for an arbitrary record
type; `AlertRec` instantiates it with the fields the code constructs. -/

/-- `generate_alert`'s ledger update: append, then keep only the last 100. -/
def generate_alert {α : Type} (a : α) (alerts : List α) : List α :=
  if 100 < (alerts ++ [a]).length then
    (alerts ++ [a]).drop ((alerts ++ [a]).length - 100)
  else alerts ++ [a]

/-- The alert record built by `generate_alert` (id and timestamp come from
the clock and a random suffix; they are carried opaquely). -/
structure AlertRec where
  id : String
  type : String
  message : String
  severity : String
  timestamp : String
  data : List (String × String)
deriving DecidableEq

/-- Keep the last 100 elements. -/
def last100 {α : Type} (l : List α) : List α := l.drop (l.length - 100)

theorem generate_alert_eq_last100 {α : Type} (a : α) (alerts : List α) :
    generate_alert a alerts = last100 (alerts ++ [a]) := by
  by_cases h : 100 < (alerts ++ [a]).length
  · simp only [generate_alert, last100, if_pos h]
  · have hz : (alerts ++ [a]).length - 100 = 0 := by
      simp only [not_lt] at h; omega
    simp only [generate_alert, last100, if_neg h, hz, List.drop_zero]

theorem length_generate_alert {α : Type} (a : α) (alerts : List α) :
    (generate_alert a alerts).length = min (alerts.length + 1) 100 := by
  rw [generate_alert_eq_last100]
  unfold last100
  simp only [List.length_drop, List.length_append, List.length_singleton]
  omega

theorem last100_append_last100 {α : Type} (h : List α) (a : α) :
    last100 (last100 h ++ [a]) = last100 (h ++ [a]) := by
  unfold last100
  by_cases hm : h.length ≤ 100
  · have h1 : h.length - 100 = 0 := by omega
    simp [h1]
  · rw [List.drop_append_eq_append_drop, List.drop_append_eq_append_drop,
      List.drop_drop]
    simp only [List.length_append, List.length_drop, List.length_cons,
      List.length_nil]
    have e1 : h.length - 100 + (h.length - (h.length - 100) + (0 + 1) - 100)
        = h.length + (0 + 1) - 100 := by omega
    have e2 : h.length - (h.length - 100) + (0 + 1) - 100
        - (h.length - (h.length - 100)) = 0 := by omega
    have e3 : h.length + (0 + 1) - 100 - h.length = 0 := by omega
    rw [e1, e2, e3]

/-- Folding a whole sequence of `raise()` calls over a ledger. -/
def foldRaises {α : Type} (alerts : List α) (as : List α) : List α :=
  as.foldl (fun l a => generate_alert a l) alerts

theorem foldRaises_last100 {α : Type} (as : List α) :
    ∀ h : List α, foldRaises (last100 h) as = last100 (h ++ as) := by
  induction as with
  | nil => intro h; simp [foldRaises]
  | cons a rest ih =>
    intro h
    have step : generate_alert a (last100 h) = last100 (h ++ [a]) := by
      rw [generate_alert_eq_last100, last100_append_last100]
    calc foldRaises (last100 h) (a :: rest)
        = foldRaises (generate_alert a (last100 h)) rest := rfl
      _ = foldRaises (last100 (h ++ [a])) rest := by rw [step]
      _ = last100 ((h ++ [a]) ++ rest) := ih (h ++ [a])
      _ = last100 (h ++ a :: rest) := by simp

theorem foldRaises_nil_eq {α : Type} (as : List α) :
    foldRaises [] as = as.drop (as.length - 100) := by
  have h0 : last100 (α := α) [] = [] := rfl
  have := foldRaises_last100 as ([] : List α)
  rw [h0] at this
  simpa [last100] using this

/-! ## Attendance cleanup (`cleanup_database`)

The pass scans the ledger in stored order.  A record missing `id`, `roll`
or `timestamp` is counted corrupted; one whose roll is not an enrolled
student is counted orphaned; otherwise the key `roll + "_" + timestamp[:16]`
(minute precision) decides duplicates: the first record per key is kept. -/

/-- The fields of an attendance record that `cleanup_database` inspects
(a missing or `None` field is modelled as the empty string). -/
structure ARec where
  id : String
  roll : String
  timestamp : String
deriving DecidableEq

/-- `f"{record['roll']}_{record['timestamp'][:16]}"`. -/
def dupKey (r : ARec) : String := r.roll ++ "_" ++ r.timestamp.take 16

/-- `not record.get("id") or not record.get("roll") or not
record.get("timestamp")`: the corrupted-record test. -/
def missingFields (r : ARec) : Prop :=
  r.id = "" ∨ r.roll = "" ∨ r.timestamp = ""

instance (r : ARec) : Decidable (missingFields r) := by
  unfold missingFields
  infer_instance

/-- A record that survives both the corrupted and the orphan check. -/
def validRec (rolls : List String) (r : ARec) : Prop :=
  ¬ missingFields r ∧ r.roll ∈ rolls

instance (rolls : List String) (r : ARec) : Decidable (validRec rolls r) := by
  unfold validRec
  infer_instance

/-- Accumulator of the cleanup scan: `seen`, `cleaned_attendance` and the
three removal counters of `cleanup_report`. -/
structure CleanState where
  seen : List String
  kept : List ARec
  dups : Nat
  corr : Nat
  orph : Nat
deriving DecidableEq

/-- One iteration of the `for record in attendance` loop. -/
def cleanupStep (rolls : List String) (st : CleanState) (r : ARec) : CleanState :=
  if missingFields r then { st with corr := st.corr + 1 }
  else if r.roll ∉ rolls then { st with orph := st.orph + 1 }
  else if dupKey r ∈ st.seen then { st with dups := st.dups + 1 }
  else { st with seen := dupKey r :: st.seen, kept := st.kept ++ [r] }

/-- `cleanup_database`: fold the scan over the stored ledger order. -/
def cleanup_database (att : List ARec) (rolls : List String) : CleanState :=
  att.foldl (cleanupStep rolls) ⟨[], [], 0, 0, 0⟩

/-- Spec-side dedup: keep the first record per key, given keys already seen. -/
def dedupFirst (seen : List String) : List ARec → List ARec
  | [] => []
  | r :: rs =>
    if dupKey r ∈ seen then dedupFirst seen rs
    else r :: dedupFirst (dupKey r :: seen) rs

/-- Spec-side count of dropped duplicates. -/
def dupCount (seen : List String) : List ARec → Nat
  | [] => 0
  | r :: rs =>
    if dupKey r ∈ seen then dupCount seen rs + 1
    else dupCount (dupKey r :: seen) rs

theorem cleanupStep_missing (rolls : List String) {r : ARec} (st : CleanState)
    (h : missingFields r) :
    cleanupStep rolls st r = { st with corr := st.corr + 1 } := by
  unfold cleanupStep
  rw [if_pos h]

theorem cleanupStep_orphan (rolls : List String) {r : ARec} (st : CleanState)
    (h1 : ¬ missingFields r) (h2 : r.roll ∉ rolls) :
    cleanupStep rolls st r = { st with orph := st.orph + 1 } := by
  unfold cleanupStep
  rw [if_neg h1, if_pos h2]

theorem cleanupStep_dup (rolls : List String) {r : ARec} (st : CleanState)
    (h1 : ¬ missingFields r) (h2 : r.roll ∈ rolls) (h3 : dupKey r ∈ st.seen) :
    cleanupStep rolls st r = { st with dups := st.dups + 1 } := by
  unfold cleanupStep
  rw [if_neg h1, if_neg (by simpa using h2), if_pos h3]

theorem cleanupStep_keep (rolls : List String) {r : ARec} (st : CleanState)
    (h1 : ¬ missingFields r) (h2 : r.roll ∈ rolls) (h3 : dupKey r ∉ st.seen) :
    cleanupStep rolls st r
      = { st with seen := dupKey r :: st.seen, kept := st.kept ++ [r] } := by
  unfold cleanupStep
  rw [if_neg h1, if_neg (by simpa using h2), if_neg h3]

theorem cleanup_fold_spec (rolls : List String) (att : List ARec) :
    ∀ st : CleanState,
      (att.foldl (cleanupStep rolls) st).kept
        = st.kept ++ dedupFirst st.seen
            (att.filter (fun r => decide (validRec rolls r))) ∧
      (att.foldl (cleanupStep rolls) st).dups
        = st.dups + dupCount st.seen
            (att.filter (fun r => decide (validRec rolls r))) ∧
      (att.foldl (cleanupStep rolls) st).corr
        = st.corr + (att.filter (fun r => decide (missingFields r))).length ∧
      (att.foldl (cleanupStep rolls) st).orph
        = st.orph + (att.filter
            (fun r => decide (¬ missingFields r ∧ r.roll ∉ rolls))).length := by
  induction att with
  | nil => intro st; simp [dedupFirst, dupCount]
  | cons r rest ih =>
    intro st
    obtain ⟨sn, kp, dp, cr, oh⟩ := st
    by_cases hc : missingFields r
    · have hv : ¬ validRec rolls r := fun h => h.1 hc
      have hor : ¬ (¬ missingFields r ∧ r.roll ∉ rolls) := fun h => h.1 hc
      rw [List.foldl_cons, cleanupStep_missing rolls _ hc,
        List.filter_cons_of_neg (by simpa using hv),
        List.filter_cons_of_pos (by simpa using hc),
        List.filter_cons_of_neg (by simpa using hor)]
      obtain ⟨h1, h2, h3, h4⟩ := ih ⟨sn, kp, dp, cr + 1, oh⟩
      dsimp only at h1 h2 h3 h4
      refine ⟨h1, h2, ?_, h4⟩
      rw [h3, List.length_cons]
      dsimp only
      omega
    · by_cases ho : r.roll ∈ rolls
      · have hv : validRec rolls r := ⟨hc, ho⟩
        have hor : ¬ (¬ missingFields r ∧ r.roll ∉ rolls) := fun h => h.2 ho
        by_cases hs : dupKey r ∈ sn
        · rw [List.foldl_cons, cleanupStep_dup rolls _ hc ho hs,
            List.filter_cons_of_pos (by simpa using hv),
            List.filter_cons_of_neg (by simpa using hc),
            List.filter_cons_of_neg (by simpa using hor)]
          obtain ⟨h1, h2, h3, h4⟩ := ih ⟨sn, kp, dp + 1, cr, oh⟩
          dsimp only at h1 h2 h3 h4
          refine ⟨?_, ?_, h3, h4⟩
          · rw [h1]
            simp [dedupFirst, hs]
          · rw [h2]
            simp only [dupCount, if_pos hs]
            omega
        · rw [List.foldl_cons, cleanupStep_keep rolls _ hc ho hs,
            List.filter_cons_of_pos (by simpa using hv),
            List.filter_cons_of_neg (by simpa using hc),
            List.filter_cons_of_neg (by simpa using hor)]
          obtain ⟨h1, h2, h3, h4⟩ := ih ⟨dupKey r :: sn, kp ++ [r], dp, cr, oh⟩
          dsimp only at h1 h2 h3 h4
          refine ⟨?_, ?_, h3, h4⟩
          · rw [h1]
            simp [dedupFirst, hs, List.append_assoc]
          · rw [h2]
            simp [dupCount, hs]
      · have hv : ¬ validRec rolls r := fun h => ho h.2
        have hor : ¬ missingFields r ∧ r.roll ∉ rolls := ⟨hc, ho⟩
        rw [List.foldl_cons, cleanupStep_orphan rolls _ hc ho,
          List.filter_cons_of_neg (by simpa using hv),
          List.filter_cons_of_neg (by simpa using hc),
          List.filter_cons_of_pos (by simpa using hor)]
        obtain ⟨h1, h2, h3, h4⟩ := ih ⟨sn, kp, dp, cr, oh + 1⟩
        dsimp only at h1 h2 h3 h4
        refine ⟨h1, h2, h3, ?_⟩
        rw [h4, List.length_cons]
        dsimp only
        omega

theorem dupCount_add_dedup_length (l : List ARec) :
    ∀ seen : List String,
      dupCount seen l + (dedupFirst seen l).length = l.length := by
  induction l with
  | nil => intro seen; simp [dupCount, dedupFirst]
  | cons r rs ih =>
    intro seen
    by_cases hs : dupKey r ∈ seen
    · simp only [dupCount, dedupFirst, if_pos hs, List.length_cons]
      have := ih seen
      omega
    · simp only [dupCount, dedupFirst, if_neg hs, List.length_cons]
      have := ih (dupKey r :: seen)
      omega

/-! ## Pattern-shift check (`check_pattern_changes`)

Days are indexed by a day number (the ISO-date prefix match
`timestamp.startswith(date)` becomes equality of day indices).  The code
compares the present-count of `today - timedelta(days=1)` with the
present-count of `today - timedelta(days=7)` and, when the relative change
exceeds 20% in absolute value, appends one alert via `generate_alert`. -/

/-- An attendance record as the pattern check sees it: its day and status. -/
structure DayRec where
  day : Nat
  status : String
deriving DecidableEq

/-- Present-count of one calendar day. -/
def presentOn (att : List DayRec) (d : Nat) : Nat :=
  (att.filter (fun r => decide (r.day = d ∧ r.status = "present"))).length

/-- The data `check_pattern_changes` puts into the alert it raises:
`type`, `severity` and the payload `{change_percent, yesterday, week_ago}`. -/
structure PAlert where
  type : String
  severity : String
  change_percent : ℚ
  yesterday : Nat
  week_ago : Nat
deriving DecidableEq

/-- `check_pattern_changes` on the alert ledger (day arithmetic in `Nat`;
callers use `today ≥ 7`). -/
def check_pattern_changes (today : Nat) (att : List DayRec)
    (alerts : List PAlert) : List PAlert :=
  let yesterday_present := presentOn att (today - 1)
  let week_ago_present := presentOn att (today - 7)
  if 0 < week_ago_present then
    let change_percent : ℚ :=
      ((yesterday_present : ℚ) - (week_ago_present : ℚ))
        / (week_ago_present : ℚ) * 100
    if 20 < |change_percent| then
      generate_alert
        ⟨"pattern_change", if change_percent < 0 then "warning" else "info",
          change_percent, yesterday_present, week_ago_present⟩ alerts
    else alerts
  else alerts

/-! ## Deletion (`delete_student`)

`delete_student` validates roll and confirmation, resolves the student,
creates `TRASH_DIR / f"{timestamp}_student_{roll}"`, moves each existing
referenced image there, dumps the student dict to `student_data.json` in
that directory, deletes the roll from `students.json`, and finally deletes
it from `embeddings.json` when present.  The side effects are recorded as
an ordered step trace. -/

/-- The externally visible side effects of `delete_student`, in order. -/
inductive DelStep where
  | moveAsset (src dst : String)
  | writeSnapshot (dir file : String)
  | saveStudents (value : List (String × Student))
  | saveEmbeddings (value : List (String × EmbRec))
deriving DecidableEq

/-- Result of a successful deletion: the trash directory name, the ordered
side-effect trace, and the two collections as persisted afterwards. -/
structure DelResult where
  trashDir : String
  steps : List DelStep
  students : List (String × Student)
  embeddings : List (String × EmbRec)
deriving DecidableEq

/-- `delete_student` (`onDisk` models `img_path.exists()`). -/
def delete_student (timestamp roll : String) (confirm : Bool)
    (students : List (String × Student)) (embeddings : List (String × EmbRec))
    (onDisk : String → Bool) : Except String DelResult :=
  if roll = "" then .error "Roll number is required"
  else if confirm = false then .error "Confirmation required"
  else
    match lookupA roll students with
    | none => .error "Student not found"
    | some student =>
      let trash_subdir := timestamp ++ "_student_" ++ roll
      let moveSteps := (student.image_paths.filter onDisk).map
        (fun p => DelStep.moveAsset p (trash_subdir ++ "/" ++ p))
      let students' := eraseA roll students
      let embSteps :=
        if (lookupA roll embeddings).isSome then
          [DelStep.saveEmbeddings (eraseA roll embeddings)]
        else []
      .ok ⟨trash_subdir,
        moveSteps
          ++ [DelStep.writeSnapshot trash_subdir "student_data.json",
              DelStep.saveStudents students']
          ++ embSteps,
        students', eraseA roll embeddings⟩

/-! ## Enrollment (`enroll_student`) and bulk upload (`bulk_upload_students`)

Enrollment validates the image count and the trimmed name, allocates the
roll via `get_next_roll`, then iterates over the images: each image is
embedded (`embed_image`, modelled by the oracle `embedOf`); a failure at
index `idx` raises immediately, a success writes `FACES_DIR/{roll}_{idx+1}.jpg`
and accumulates the embedding and the path.  Only after all five images
succeed are `students.json` and then `embeddings.json` written. -/

/-- Python `str.strip()` over the character list (kernel-reducible,
unlike `String.trim`). -/
def strTrim (s : String) : String :=
  String.mk
    (((s.toList.dropWhile Char.isWhitespace).reverse.dropWhile
        Char.isWhitespace).reverse)

/-- Durable state touched by enrollment: the two collections and the set of
files in the faces directory (in creation order). -/
structure EnrollState where
  students : List (String × Student)
  embeddings : List (String × EmbRec)
  faces : List String
deriving DecidableEq

/-- Face image file name `f"{roll}_{idx + 1}.jpg"`. -/
def faceFile (roll : String) (idx : Nat) : String :=
  roll ++ "_" ++ toString (idx + 1) ++ ".jpg"

/-- The face files written for `k` consecutive image indices starting at
`idx`. -/
def facesFrom (roll : String) (idx k : Nat) : List String :=
  (List.range k).map (fun j => faceFile roll (idx + j))

/-- The `for idx, img_base64 in enumerate(...)` loop of `enroll_student`:
embed each image, abort with the failing index, or save the image file and
accumulate embeddings and paths. -/
def enrollLoop (roll : String) (embedOf : String → Option (List ℚ)) :
    List String → Nat → EnrollState → List (List ℚ) → List String →
      EnrollState × Except Nat (List (List ℚ) × List String)
  | [], _, st, embs, paths => (st, .ok (embs, paths))
  | img :: rest, idx, st, embs, paths =>
    match embedOf img with
    | none => (st, .error idx)
    | some e =>
      enrollLoop roll embedOf rest (idx + 1)
        { st with faces := st.faces ++ [faceFile roll idx] }
        (embs ++ [e]) (paths ++ [faceFile roll idx])

/-- `enroll_student`: returns the final durable state together with either
an error message or the `(roll, name)` success payload. -/
def enroll_student (name : String) (images : List String)
    (embedOf : String → Option (List ℚ)) (createdAt : String)
    (st : EnrollState) : EnrollState × Except String (String × String) :=
  if images.length ≠ 5 then (st, .error "Exactly 5 images required")
  else if strTrim name = "" then (st, .error "Name is required")
  else
    let roll := get_next_roll st.students
    match enrollLoop roll embedOf images 0 st [] [] with
    | (st', .error idx) =>
      (st', .error ("Could not detect face in image " ++ toString (idx + 1)))
    | (st', .ok (embs, paths)) =>
      let students' := upsert roll ⟨roll, strTrim name, embs, paths, createdAt⟩
        st'.students
      let embeddings' := upsert roll ⟨roll, strTrim name, embs⟩ st'.embeddings
      ({ st' with students := students', embeddings := embeddings' },
        .ok (roll, strTrim name))

/-- `sanitize_roll`: keep alphanumeric characters, `-` and `_`. -/
def sanitize_roll (roll : String) : String :=
  String.mk (roll.toList.filter (fun c => c.isAlphanum || c = '-' || c = '_'))

/-- One row of a bulk-upload request (`name` and optional `roll`). -/
structure BulkRow where
  name : String
  roll : Option String
deriving DecidableEq

/-- `bulk_upload_students`: folds the rows over the in-memory `students`
dict.  `get_next_roll()` re-reads `students.json`, which is unchanged until
the single save at the end, so the generated default roll is computed from
the initial collection.  The embeddings collection is never touched.
Returns the updated collection, the `enrolled` list and the error count. -/
def bulk_upload_students (rows : List BulkRow)
    (students : List (String × Student)) (createdAt : String) :
    List (String × Student) × List (String × String) × Nat :=
  rows.foldl
    (fun acc row =>
      if strTrim row.name = "" then (acc.1, acc.2.1, acc.2.2 + 1)
      else
        let roll := sanitize_roll (row.roll.getD (get_next_roll students))
        if (lookupA roll acc.1).isSome then (acc.1, acc.2.1, acc.2.2 + 1)
        else
          (upsert roll ⟨roll, strTrim row.name, [], [], createdAt⟩ acc.1,
            acc.2.1 ++ [(roll, strTrim row.name)], acc.2.2))
    (students, [], 0)

/-! ## The repository / embedding-index correspondence -/

/-- Invariant claimed in the spec: every identity in `students.json` has an
entry in `embeddings.json` with an identical embeddings list. -/
def ReposIndexInv (students : List (String × Student))
    (embeddings : List (String × EmbRec)) : Prop :=
  ∀ r stu, lookupA r students = some stu →
    ∃ em, lookupA r embeddings = some em ∧ em.embeddings = stu.embeddings

theorem enrollLoop_preserves_collections (roll : String)
    (embedOf : String → Option (List ℚ)) (imgs : List String) :
    ∀ idx st embs paths,
      (enrollLoop roll embedOf imgs idx st embs paths).1.students
          = st.students ∧
      (enrollLoop roll embedOf imgs idx st embs paths).1.embeddings
          = st.embeddings := by
  induction imgs with
  | nil => intro idx st embs paths; exact ⟨rfl, rfl⟩
  | cons img rest ih =>
    intro idx st embs paths
    cases h : embedOf img with
    | none => simp [enrollLoop, h]
    | some e =>
      simp only [enrollLoop, h]
      exact ih (idx + 1) { st with faces := st.faces ++ [faceFile roll idx] }
        (embs ++ [e]) (paths ++ [faceFile roll idx])

theorem upsert_pair_preserves_inv {students : List (String × Student)}
    {embeddings : List (String × EmbRec)} (roll : String) (stu : Student)
    (em : EmbRec) (hinv : ReposIndexInv students embeddings)
    (hsame : em.embeddings = stu.embeddings) :
    ReposIndexInv (upsert roll stu students) (upsert roll em embeddings) := by
  intro r s hs
  by_cases hr : r = roll
  · subst hr
    rw [lookupA_upsert_self] at hs
    exact ⟨em, by rw [lookupA_upsert_self], by
      rw [hsame, (Option.some_injective _ hs)]⟩
  · rw [lookupA_upsert_ne hr] at hs
    obtain ⟨em', hem', hsame'⟩ := hinv r s hs
    exact ⟨em', by rw [lookupA_upsert_ne hr]; exact hem', hsame'⟩

theorem erase_pair_preserves_inv {students : List (String × Student)}
    {embeddings : List (String × EmbRec)} (roll : String)
    (hinv : ReposIndexInv students embeddings) :
    ReposIndexInv (eraseA roll students) (eraseA roll embeddings) := by
  intro r s hs
  by_cases hr : r = roll
  · subst hr
    rw [lookupA_erase_self] at hs
    exact absurd hs (by simp)
  · rw [lookupA_erase_ne hr] at hs
    obtain ⟨em', hem', hsame'⟩ := hinv r s hs
    exact ⟨em', by rw [lookupA_erase_ne hr]; exact hem', hsame'⟩

/-! ## Cosine distance (`cosine_distance`)

`cosine_distance` returns `1 - cosine_similarity(e1, e2)` where sklearn's
`cosine_similarity` normalizes each vector by its L2 norm, substituting 1
for a zero norm (so a zero vector stays zero and its similarity with
anything is 0).  Float arithmetic is idealized as real arithmetic. -/

/-- Dot product of two real vectors (row-wise product sum). -/
def dotp : List ℝ → List ℝ → ℝ
  | [], _ => 0
  | _, [] => 0
  | a :: as, b :: bs => a * b + dotp as bs

/-- L2 norm. -/
noncomputable def l2norm (x : List ℝ) : ℝ := Real.sqrt (dotp x x)

/-- `cosine_distance(e1, e2) = 1 - cosine_similarity(e1, e2)`, with
sklearn's zero-norm guard. -/
noncomputable def cosine_distance (x y : List ℝ) : ℝ :=
  1 - dotp x y /
    ((if l2norm x = 0 then 1 else l2norm x) *
      (if l2norm y = 0 then 1 else l2norm y))

/-- Negation of a vector. -/
def negVec (x : List ℝ) : List ℝ := x.map (fun a => -a)

theorem dotp_nil_right (x : List ℝ) : dotp x [] = 0 := by
  cases x <;> rfl

theorem dotp_self_nonneg (x : List ℝ) : 0 ≤ dotp x x := by
  induction x with
  | nil => exact le_refl 0
  | cons a as ih =>
    simp only [dotp]
    exact add_nonneg (mul_self_nonneg a) ih

theorem dotp_comm (x y : List ℝ) : dotp x y = dotp y x := by
  induction x generalizing y with
  | nil => cases y <;> simp [dotp]
  | cons a as ih =>
    cases y with
    | nil => simp [dotp]
    | cons b bs => simp only [dotp, ih bs]; ring

theorem dotp_self_zero_left {x : List ℝ} (h : dotp x x = 0) (y : List ℝ) :
    dotp x y = 0 := by
  induction x generalizing y with
  | nil => cases y <;> rfl
  | cons a as ih =>
    simp only [dotp] at h
    have ha : a * a = 0 := by
      have h1 := mul_self_nonneg a
      have h2 := dotp_self_nonneg as
      linarith
    have has : dotp as as = 0 := by
      have h1 := mul_self_nonneg a
      have h2 := dotp_self_nonneg as
      linarith
    have ha0 : a = 0 := by
      exact mul_self_eq_zero.mp ha
    cases y with
    | nil => rfl
    | cons b bs =>
      simp only [dotp, ha0, ih has bs, zero_mul, add_zero]

theorem dotp_negVec_right (x y : List ℝ) : dotp x (negVec y) = -dotp x y := by
  induction x generalizing y with
  | nil => cases y <;> simp [dotp, negVec]
  | cons a as ih =>
    cases y with
    | nil => simp [dotp, negVec]
    | cons b bs =>
      simp only [negVec, List.map_cons, dotp]
      have := ih bs
      simp only [negVec] at this
      rw [this]
      ring

theorem l2norm_negVec (x : List ℝ) : l2norm (negVec x) = l2norm x := by
  unfold l2norm
  have h1 : dotp (negVec x) (negVec x) = dotp x x := by
    rw [dotp_negVec_right, dotp_comm, dotp_negVec_right, dotp_comm, neg_neg]
  rw [h1]

theorem dotp_self_ne_zero_of_l2norm {x : List ℝ} (h : l2norm x ≠ 0) :
    dotp x x ≠ 0 := by
  intro h0
  apply h
  unfold l2norm
  rw [h0, Real.sqrt_zero]

theorem dotp_self_eq_zero_of_l2norm {x : List ℝ} (h : l2norm x = 0) :
    dotp x x = 0 := by
  have h1 := dotp_self_nonneg x
  unfold l2norm at h
  have := Real.sqrt_eq_zero'.mp h
  linarith

theorem cosine_distance_self {x : List ℝ} (h : l2norm x ≠ 0) :
    cosine_distance x x = 0 := by
  unfold cosine_distance
  rw [if_neg h]
  have hsq : l2norm x * l2norm x = dotp x x := by
    unfold l2norm
    exact Real.mul_self_sqrt (dotp_self_nonneg x)
  rw [hsq, div_self (dotp_self_ne_zero_of_l2norm h)]
  ring

theorem cosine_distance_negVec {x : List ℝ} (h : l2norm x ≠ 0) :
    cosine_distance x (negVec x) = 2 := by
  unfold cosine_distance
  rw [if_neg h, l2norm_negVec, if_neg h, dotp_negVec_right]
  have hsq : l2norm x * l2norm x = dotp x x := by
    unfold l2norm
    exact Real.mul_self_sqrt (dotp_self_nonneg x)
  rw [hsq, neg_div, div_self (dotp_self_ne_zero_of_l2norm h)]
  ring

theorem cosine_distance_zero_left {x : List ℝ} (h : l2norm x = 0)
    (y : List ℝ) : cosine_distance x y = 1 := by
  unfold cosine_distance
  rw [dotp_self_zero_left (dotp_self_eq_zero_of_l2norm h) y]
  simp

theorem cosine_distance_zero_right {y : List ℝ} (h : l2norm y = 0)
    (x : List ℝ) : cosine_distance x y = 1 := by
  unfold cosine_distance
  rw [dotp_comm, dotp_self_zero_left (dotp_self_eq_zero_of_l2norm h) x]
  simp

/-! ## Recognition matcher (`recognize_face`)

The matcher iterates over `embeddings_data.items()` (insertion order) and,
per identity, over its stored embedding list, keeping `best_match` and
`best_distance` under the strict update `if distance < best_distance`.
`best_distance` starts at `float("inf")`, modelled by an `Option` that is
always beaten.  A match is returned exactly when the final
`best_distance < THRESHOLD` (and a best match exists). -/

/-- One `embeddings.json` item as the matcher reads it:
`(roll, name, embeddings)`. -/
abbrev MatchEntry := String × String × List (List ℝ)

/-- The loop body of `recognize_face`:
`if distance < best_distance: update best`. -/
noncomputable def stepMin {β : Type} (acc : Option (β × ℝ)) (x : β × ℝ) :
    Option (β × ℝ) :=
  match acc with
  | none => some x
  | some y => if x.2 < y.2 then some x else some y

/-- The double scan of `recognize_face` over the embedding index. -/
noncomputable def recognizeScan (q : List ℝ) (entries : List MatchEntry) :
    Option ((String × String) × ℝ) :=
  entries.foldl
    (fun acc e =>
      e.2.2.foldl
        (fun acc2 emb => stepMin acc2 ((e.1, e.2.1), cosine_distance q emb))
        acc)
    none

/-- The decision of `recognize_face`: a match exactly when the best
distance is strictly below the threshold. -/
noncomputable def recognize_face (q : List ℝ) (entries : List MatchEntry)
    (threshold : ℝ) : Option ((String × String) × ℝ) :=
  match recognizeScan q entries with
  | some (bm, bd) => if bd < threshold then some (bm, bd) else none
  | none => none

/-- All scanned candidates, in scan order, paired with their distances. -/
noncomputable def candidates (q : List ℝ) (entries : List MatchEntry) :
    List ((String × String) × ℝ) :=
  entries.flatMap
    (fun e => e.2.2.map (fun emb => ((e.1, e.2.1), cosine_distance q emb)))

/-- First-encountered minimum under strict `<` (the spec's tie-break). -/
noncomputable def firstMin {β : Type} : List (β × ℝ) → Option (β × ℝ)
  | [] => none
  | x :: xs =>
    match firstMin xs with
    | none => some x
    | some y => if y.2 < x.2 then some y else some x

theorem recognizeScan_eq_foldl_candidates (q : List ℝ)
    (entries : List MatchEntry) :
    recognizeScan q entries = (candidates q entries).foldl stepMin none := by
  suffices h : ∀ acc : Option ((String × String) × ℝ),
      entries.foldl
        (fun acc e =>
          e.2.2.foldl
            (fun acc2 emb =>
              stepMin acc2 ((e.1, e.2.1), cosine_distance q emb)) acc)
        acc
      = (candidates q entries).foldl stepMin acc by
    exact h none
  induction entries with
  | nil => intro acc; simp [candidates]
  | cons e es ih =>
    intro acc
    simp only [List.foldl_cons, candidates, List.flatMap_cons, List.foldl_append]
    rw [← List.foldl_map (fun emb => ((e.1, e.2.1), cosine_distance q emb))
      stepMin]
    exact ih _

theorem firstMin_eq_none_iff {β : Type} (l : List (β × ℝ)) :
    firstMin l = none ↔ l = [] := by
  cases l with
  | nil => simp [firstMin]
  | cons x xs =>
    simp only [firstMin]
    cases hm : firstMin xs with
    | none => simp [hm]
    | some y =>
      by_cases hc : y.2 < x.2 <;> simp [hm, hc]

theorem foldl_stepMin_some {β : Type} (l : List (β × ℝ)) :
    ∀ b : β × ℝ, l.foldl stepMin (some b) = firstMin (b :: l) := by
  induction l with
  | nil => intro b; simp [firstMin]
  | cons x xs ih =>
    intro b
    have hstep : stepMin (some b) x = some (if x.2 < b.2 then x else b) := by
      simp only [stepMin]
      by_cases hc : x.2 < b.2 <;> simp [hc]
    rw [List.foldl_cons, hstep, ih]
    show firstMin ((if x.2 < b.2 then x else b) :: xs) = firstMin (b :: x :: xs)
    simp only [firstMin]
    cases hm : firstMin xs with
    | none =>
      by_cases hxb : x.2 < b.2 <;> simp [hm, hxb]
    | some y =>
      by_cases hyx : y.2 < x.2
      · by_cases hxb : x.2 < b.2
        · have hyb : y.2 < b.2 := lt_trans hyx hxb
          simp [hm, hxb, hyx, hyb]
        · simp [hm, hxb, hyx]
      · by_cases hxb : x.2 < b.2
        · simp [hm, hxb, hyx]
        · have hyb : ¬ y.2 < b.2 := by
            push_neg at hyx hxb ⊢
            linarith
          simp [hm, hxb, hyx, hyb]

theorem foldl_stepMin_none {β : Type} (l : List (β × ℝ)) :
    l.foldl stepMin none = firstMin l := by
  cases l with
  | nil => rfl
  | cons x xs =>
    rw [List.foldl_cons]
    have hstep : stepMin (none : Option (β × ℝ)) x = some x := rfl
    rw [hstep, foldl_stepMin_some]

theorem firstMin_spec {β : Type} (l : List (β × ℝ)) :
    ∀ x : β × ℝ, firstMin l = some x →
      ∃ pre suf, l = pre ++ x :: suf ∧ (∀ p ∈ pre, x.2 < p.2) ∧
        ∀ p ∈ l, x.2 ≤ p.2 := by
  induction l with
  | nil => intro x h; simp [firstMin] at h
  | cons a xs ih =>
    intro x h
    simp only [firstMin] at h
    cases hm : firstMin xs with
    | none =>
      rw [hm] at h
      simp only at h
      have hx : a = x := Option.some_injective _ h
      have hnil : xs = [] := (firstMin_eq_none_iff xs).mp hm
      subst hnil
      refine ⟨[], [], by rw [hx]; rfl, by simp, ?_⟩
      intro p hp
      simp only [List.mem_singleton] at hp
      rw [hp, ← hx]
    | some y =>
      rw [hm] at h
      simp only at h
      by_cases hyx : y.2 < a.2
      · rw [if_pos hyx] at h
        have hx : y = x := Option.some_injective _ h
        subst hx
        obtain ⟨pre, suf, heq, hpre, hall⟩ := ih y hm
        refine ⟨a :: pre, suf, by rw [heq, List.cons_append], ?_, ?_⟩
        · intro p hp
          rcases List.mem_cons.mp hp with h1 | h2
          · rw [h1]; exact hyx
          · exact hpre p h2
        · intro p hp
          rcases List.mem_cons.mp hp with h1 | h2
          · rw [h1]; exact le_of_lt hyx
          · exact hall p h2
      · rw [if_neg hyx] at h
        have hx : a = x := Option.some_injective _ h
        obtain ⟨pre, suf, heq, hpre, hall⟩ := ih y hm
        refine ⟨[], xs, by rw [hx]; rfl, by simp, ?_⟩
        intro p hp
        rcases List.mem_cons.mp hp with h1 | h2
        · rw [h1, ← hx]
        · have h3 : x.2 ≤ y.2 := by
            rw [← hx]
            exact le_of_not_lt hyx
          exact le_trans h3 (hall p h2)

/-! ## Claim C1 — crash atomicity of `save`

`atomic_write_json` runs `path.unlink()` before `temp_path.replace(path)`.
A crash between those two calls (after step 2 of the model) leaves the
target file deleted, so the next `load` returns the default value instead
of the previously committed one. -/

/-- C1.  A `save` of `"new"` over a committed `"old"`: crashes before the
temp file is complete (steps 0 and 1) leave the committed bytes unchanged,
but a crash after the `unlink` and before the `replace` (step 2) — still
before the atomic replace completes — leaves the file missing, so the next
load returns the default instead of `"old"`.  A completed write (step 3)
commits `"new"`.  This refutes the claim that any interruption before the
replace leaves the committed file byte-for-byte unchanged. -/
theorem claim_C1_unlink_window_loses_committed_file :
    (atomic_write_json_crash "new" ⟨some "old", none⟩ 0).target = some "old" ∧
    (atomic_write_json_crash "new" ⟨some "old", none⟩ 1).target = some "old" ∧
    (atomic_write_json_crash "new" ⟨some "old", none⟩ 2).target = none ∧
    atomic_read_json (atomic_write_json_crash "new" ⟨some "old", none⟩ 2)
      "default" = "default" ∧
    atomic_read_json (atomic_write_json_crash "new" ⟨some "old", none⟩ 3)
      "default" = "new" ∧
    "default" ≠ "old" := by
  decide

/-! ## Claim C3 — `nextId()` allocation -/

/-- A student record carrying only the roll the allocator reads. -/
def c3Stu (r : String) : Student := ⟨r, "S", [], [], "t"⟩

/-- Students enrolled `"001" .. "005"`. -/
def c3Five : List (String × Student) :=
  [("001", c3Stu "001"), ("002", c3Stu "002"), ("003", c3Stu "003"),
    ("004", c3Stu "004"), ("005", c3Stu "005")]

/-- Students `"001"` and `"003"` (a gap). -/
def c3Gap : List (String × Student) :=
  [("001", c3Stu "001"), ("003", c3Stu "003")]

/-- C3.  `get_next_roll` equals the spec's allocator — the maximum over the
numeric ids plus one, zero-padded to width 3, ignoring non-numeric ids, and
`"001"` when no numeric id exists — and in particular returns `"006"` after
ids 001–005 and `"004"` after the gapped ids 001 and 003. -/
theorem claim_C3_next_roll :
    (∀ students : List (String × Student),
      get_next_roll students = nextIdSpec students) ∧
    get_next_roll c3Five = "006" ∧
    get_next_roll c3Gap = "004" ∧
    get_next_roll [] = "001" ∧
    get_next_roll [("x", c3Stu "ab")] = "001" := by
  refine ⟨?_, by decide, by decide, by decide, by decide⟩
  intro students
  unfold get_next_roll nextIdSpec
  by_cases hs : students = []
  · subst hs; rfl
  · rw [if_neg hs]
    cases hm : (((students.map (fun p => p.2.roll)).filter
        isDigits).map digitsVal).max? with
    | none =>
      have hnil := List.max?_eq_none_iff.mp hm
      simp [hnil, hm]
    | some m =>
      have hne : ((students.map (fun p => p.2.roll)).filter
          isDigits).map digitsVal ≠ [] := by
        intro h
        rw [h] at hm
        simp [List.max?] at hm
      rw [if_neg hne, foldl_max_eq_max? _ m hm]
      simp [hm]

/-! ## Claim C6 — the alert ledger cap -/

/-- An arbitrary concrete alert record, numbered. -/
def c6Alert (i : Nat) : AlertRec := ⟨toString i, "t", "m", "info", "ts", []⟩

/-- C6.  Every `raise()` leaves the ledger equal to the last 100 elements of
the appended ledger (so at most 100 records, oldest evicted first); from an
empty ledger, a sequence of raises leaves exactly the most recent 100; in
particular 101 successive raises leave exactly the 100 most recent. -/
theorem claim_C6_alert_cap :
    (∀ (l : List AlertRec) (a : AlertRec),
      generate_alert a l = (l ++ [a]).drop ((l ++ [a]).length - 100)) ∧
    (∀ (l : List AlertRec) (a : AlertRec),
      (generate_alert a l).length ≤ 100) ∧
    (∀ alerts : List AlertRec,
      foldRaises [] alerts = alerts.drop (alerts.length - 100) ∧
      (foldRaises [] alerts).length = min alerts.length 100) ∧
    (∀ alerts : List AlertRec, alerts.length = 101 →
      foldRaises [] alerts = alerts.drop 1 ∧
      (foldRaises [] alerts).length = 100) := by
  refine ⟨?_, ?_, ?_, ?_⟩
  · intro l a
    rw [generate_alert_eq_last100]
    rfl
  · intro l a
    rw [length_generate_alert]
    exact min_le_right _ _
  · intro alerts
    refine ⟨foldRaises_nil_eq alerts, ?_⟩
    rw [foldRaises_nil_eq alerts, List.length_drop]
    omega
  · intro alerts hlen
    refine ⟨?_, ?_⟩
    · rw [foldRaises_nil_eq alerts, hlen]
    · rw [foldRaises_nil_eq alerts, List.length_drop, hlen]

/-- C6 witness: 101 successive raises from an empty ledger leave the 100
most recent alerts. -/
theorem claim_C6_alert_cap_witness :
    ((List.range 101).map c6Alert).length = 101 ∧
    foldRaises [] ((List.range 101).map c6Alert)
        = ((List.range 101).map c6Alert).drop 1 ∧
    (foldRaises [] ((List.range 101).map c6Alert)).length = 100 := by
  have hlen : ((List.range 101).map c6Alert).length = 101 := by simp
  exact ⟨hlen, claim_C6_alert_cap.2.2.2 _ hlen⟩

/-! ## Claim C9 — `deduplicate()` -/

/-- Two records for the same identity at 09:00:15 and 09:00:45. -/
def c9Att : List ARec :=
  [⟨"a1", "001", "2024-01-01T09:00:15"⟩, ⟨"a2", "001", "2024-01-01T09:00:45"⟩]

/-- C9.  `cleanup_database` keeps, in original order, the first record per
`(roll, minute-truncated timestamp)` key among the records that have all
required fields and reference an enrolled student; it separately counts the
corrupted (missing-field) and orphaned (deleted-identity) records it drops,
and the duplicate count is exactly the number of valid records dropped.
Two same-minute records for one identity leave exactly one. -/
theorem claim_C9_deduplicate :
    (∀ (att : List ARec) (rolls : List String),
      (cleanup_database att rolls).kept
        = dedupFirst [] (att.filter (fun r => decide (validRec rolls r))) ∧
      (cleanup_database att rolls).corr
        = (att.filter (fun r => decide (missingFields r))).length ∧
      (cleanup_database att rolls).orph
        = (att.filter
            (fun r => decide (¬ missingFields r ∧ r.roll ∉ rolls))).length ∧
      (cleanup_database att rolls).dups
          + (cleanup_database att rolls).kept.length
        = (att.filter (fun r => decide (validRec rolls r))).length) ∧
    (cleanup_database c9Att ["001"]).kept
      = [⟨"a1", "001", "2024-01-01T09:00:15"⟩] ∧
    (cleanup_database c9Att ["001"]).dups = 1 ∧
    (cleanup_database c9Att ["001"]).corr = 0 ∧
    (cleanup_database c9Att ["001"]).orph = 0 := by
  refine ⟨?_, by decide, by decide, by decide, by decide⟩
  intro att rolls
  obtain ⟨h1, h2, h3, h4⟩ := cleanup_fold_spec rolls att ⟨[], [], 0, 0, 0⟩
  refine ⟨by simpa using h1, by simpa using h3, by simpa using h4, ?_⟩
  unfold cleanup_database
  rw [h1, h2]
  simp only [List.nil_append]
  have := dupCount_add_dedup_length
    (att.filter (fun r => decide (validRec rolls r))) []
  omega

/-! ## Claim C7 — `detectPatternShift` day arithmetic

The code compares yesterday (`today - 1`) against `today - 7`, which is six
days before yesterday — a different weekday — not the same weekday one week
prior to yesterday (`today - 8`). -/

/-- What `check_pattern_changes` does, split by its branch conditions:
`today - 7` is the day actually compared against, and when the relative
change exceeds 20% exactly one alert is appended (ledger capped at 100). -/
theorem check_pattern_changes_spec (today : Nat) (att : List DayRec)
    (alerts : List PAlert) :
    (0 < presentOn att (today - 7) →
      20 < |((presentOn att (today - 1) : ℚ) - (presentOn att (today - 7) : ℚ))
          / (presentOn att (today - 7) : ℚ) * 100| →
      check_pattern_changes today att alerts
        = (alerts ++ [(⟨"pattern_change",
            if ((presentOn att (today - 1) : ℚ)
                  - (presentOn att (today - 7) : ℚ))
                / (presentOn att (today - 7) : ℚ) * 100 < 0
              then "warning" else "info",
            ((presentOn att (today - 1) : ℚ)
                - (presentOn att (today - 7) : ℚ))
              / (presentOn att (today - 7) : ℚ) * 100,
            presentOn att (today - 1), presentOn att (today - 7)⟩ : PAlert)]).drop
          (alerts.length + 1 - 100)) ∧
    (0 < presentOn att (today - 7) →
      ¬ 20 < |((presentOn att (today - 1) : ℚ)
          - (presentOn att (today - 7) : ℚ))
          / (presentOn att (today - 7) : ℚ) * 100| →
      check_pattern_changes today att alerts = alerts) ∧
    (presentOn att (today - 7) = 0 →
      check_pattern_changes today att alerts = alerts) := by
  refine ⟨?_, ?_, ?_⟩
  · intro hw hchg
    unfold check_pattern_changes
    rw [if_pos hw, if_pos hchg, generate_alert_eq_last100]
    unfold last100
    congr 1
    simp [List.length_append]
  · intro hw hchg
    unfold check_pattern_changes
    rw [if_pos hw, if_neg hchg]
  · intro hw
    unfold check_pattern_changes
    rw [hw]
    simp

/-- With `today = 10`: 1 present on day 9 (yesterday), 10 present on day 2
(the same weekday one week prior to yesterday), 1 present on day 3
(`today - 7`, what the code actually reads). -/
def c7Att : List DayRec :=
  List.replicate 10 ⟨2, "present"⟩ ++ [⟨9, "present"⟩, ⟨3, "present"⟩]

/-- C7 counterexample: the comparison the claim describes (yesterday versus
the same weekday one week prior to yesterday, day `10 - 1 - 7 = 2`) shows a
90% drop, well beyond 20%, yet `check_pattern_changes` raises no alert,
because it reads day `10 - 7 = 3` instead and sees no change at all. -/
theorem claim_C7_counterexample :
    presentOn c7Att (10 - 1) = 1 ∧
    presentOn c7Att (10 - 1 - 7) = 10 ∧
    20 < |((presentOn c7Att (10 - 1) : ℚ) - (presentOn c7Att (10 - 1 - 7) : ℚ))
      / (presentOn c7Att (10 - 1 - 7) : ℚ) * 100| ∧
    presentOn c7Att (10 - 7) = 1 ∧
    check_pattern_changes 10 c7Att [] = [] := by
  have h1 : presentOn c7Att (10 - 1) = 1 := by decide
  have h2 : presentOn c7Att (10 - 1 - 7) = 10 := by decide
  have h3 : presentOn c7Att (10 - 7) = 1 := by decide
  refine ⟨h1, h2, ?_, h3, ?_⟩
  · rw [h1, h2]
    push_cast
    rw [abs_of_nonpos (by norm_num)]
    norm_num
  · exact (check_pattern_changes_spec 10 c7Att []).2.1
      (by rw [h3]; norm_num)
      (by rw [h1, h3]; push_cast; norm_num)

/-- C7 as amended.  `check_pattern_changes` compares the yesterday
present-count with the present-count of `today - 7` (six days before
yesterday, not the weekday of yesterday a week earlier); when that earlier
count is positive and the relative change exceeds 20% in absolute value it
appends exactly one alert, severity `"warning"` for a decrease and
`"info"` for an increase, carrying both counts and the percentage change,
the ledger then being capped at 100; otherwise the ledger is unchanged. -/
theorem claim_C7_amended (today : Nat) (att : List DayRec)
    (alerts : List PAlert) :
    (0 < presentOn att (today - 7) →
      20 < |((presentOn att (today - 1) : ℚ) - (presentOn att (today - 7) : ℚ))
          / (presentOn att (today - 7) : ℚ) * 100| →
      check_pattern_changes today att alerts
        = (alerts ++ [(⟨"pattern_change",
            if ((presentOn att (today - 1) : ℚ)
                  - (presentOn att (today - 7) : ℚ))
                / (presentOn att (today - 7) : ℚ) * 100 < 0
              then "warning" else "info",
            ((presentOn att (today - 1) : ℚ)
                - (presentOn att (today - 7) : ℚ))
              / (presentOn att (today - 7) : ℚ) * 100,
            presentOn att (today - 1), presentOn att (today - 7)⟩ : PAlert)]).drop
          (alerts.length + 1 - 100)) ∧
    (0 < presentOn att (today - 7) →
      ¬ 20 < |((presentOn att (today - 1) : ℚ)
          - (presentOn att (today - 7) : ℚ))
          / (presentOn att (today - 7) : ℚ) * 100| →
      check_pattern_changes today att alerts = alerts) ∧
    (presentOn att (today - 7) = 0 →
      check_pattern_changes today att alerts = alerts) :=
  check_pattern_changes_spec today att alerts

/-- Attendance for the C7 witness: with `today = 10`, day 9 has 2 present
and day 3 has 1 present — a +100% change, so one info alert is raised. -/
def c7AttW : List DayRec := [⟨9, "present"⟩, ⟨9, "present"⟩, ⟨3, "present"⟩]

/-- C7 witness: the amended behavior at a concrete ledger. -/
theorem claim_C7_amended_witness :
    check_pattern_changes 10 c7AttW []
      = [(⟨"pattern_change", "info", 100, 2, 1⟩ : PAlert)] := by
  have h9 : presentOn c7AttW (10 - 1) = 2 := by decide
  have h3 : presentOn c7AttW (10 - 7) = 1 := by decide
  have h := (claim_C7_amended 10 c7AttW []).1
    (by rw [h3]; norm_num)
    (by
      rw [h9, h3]
      push_cast
      exact lt_of_lt_of_le (by norm_num) (le_abs_self _))
  rw [h, h9, h3]
  norm_num

/-! ## Claim C8 — deletion names and ordering -/

/-- The student deleted in the C8 counterexample. -/
def c8Stu : Student := ⟨"007", "Greg", [], ["007_1.jpg"], "t"⟩

/-- Its mirrored embedding-index entry. -/
def c8Emb : EmbRec := ⟨"007", "Greg", []⟩

/-- The result `delete_student` actually produces on that input. -/
def c8Res : DelResult :=
  ⟨"20250101_120000_student_007",
    [DelStep.moveAsset "007_1.jpg" "20250101_120000_student_007/007_1.jpg",
      DelStep.writeSnapshot "20250101_120000_student_007" "student_data.json",
      DelStep.saveStudents [], DelStep.saveEmbeddings []],
    [], []⟩

/-- C8 counterexample: on a concrete deletion the trash subdirectory is
named `20250101_120000_student_007`, not `<timestamp>_<identityId>` =
`20250101_120000_007`, and the snapshot written is `student_data.json`,
not `identity_snapshot.json`. -/
theorem claim_C8_counterexample :
    delete_student "20250101_120000" "007" true [("007", c8Stu)]
        [("007", c8Emb)] (fun _ => true) = .ok c8Res ∧
    c8Res.trashDir ≠ "20250101_120000_007" ∧
    DelStep.writeSnapshot c8Res.trashDir "identity_snapshot.json"
      ∉ c8Res.steps ∧
    DelStep.writeSnapshot c8Res.trashDir "student_data.json" ∈ c8Res.steps := by
  refine ⟨rfl, by decide, by decide, by decide⟩

/-- C8 as amended.  A confirmed deletion of an existing identity moves
every referenced asset present on disk into one fresh trash subdirectory
named `<timestamp>_student_<identityId>`, then writes exactly one snapshot
named `student_data.json` into it, then saves the repository collection
with the identity removed, and finally saves the embedding-index collection
with the mirrored entry removed (when it was present). -/
theorem claim_C8_amended (ts roll : String) (confirm : Bool)
    (students : List (String × Student)) (embeddings : List (String × EmbRec))
    (onDisk : String → Bool) (stu : Student)
    (hroll : roll ≠ "") (hconf : confirm = true)
    (hstu : lookupA roll students = some stu) :
    ∃ res : DelResult,
      delete_student ts roll confirm students embeddings onDisk = .ok res ∧
      res.trashDir = ts ++ "_student_" ++ roll ∧
      res.steps
        = ((stu.image_paths.filter onDisk).map
            (fun p => DelStep.moveAsset p (res.trashDir ++ "/" ++ p)))
          ++ [DelStep.writeSnapshot res.trashDir "student_data.json",
              DelStep.saveStudents res.students]
          ++ (if (lookupA roll embeddings).isSome then
                [DelStep.saveEmbeddings res.embeddings] else []) ∧
      res.students = eraseA roll students ∧
      res.embeddings = eraseA roll embeddings ∧
      lookupA roll res.students = none ∧
      lookupA roll res.embeddings = none := by
  subst hconf
  unfold delete_student
  rw [if_neg hroll, if_neg (by simp), hstu]
  exact ⟨_, rfl, rfl, rfl, rfl, rfl, lookupA_erase_self roll students,
    lookupA_erase_self roll embeddings⟩

/-- C8 witness: the amended deletion contract at a concrete input. -/
theorem claim_C8_amended_witness :
    ∃ res : DelResult,
      delete_student "20250101_120000" "007" true [("007", c8Stu)]
          [("007", c8Emb)] (fun _ => true) = .ok res ∧
      res.trashDir = "20250101_120000" ++ "_student_" ++ "007" ∧
      res.steps
        = ((c8Stu.image_paths.filter (fun _ => true)).map
            (fun p => DelStep.moveAsset p (res.trashDir ++ "/" ++ p)))
          ++ [DelStep.writeSnapshot res.trashDir "student_data.json",
              DelStep.saveStudents res.students]
          ++ (if (lookupA "007" [("007", c8Emb)]).isSome then
                [DelStep.saveEmbeddings res.embeddings] else []) ∧
      res.students = eraseA "007" [("007", c8Stu)] ∧
      res.embeddings = eraseA "007" [("007", c8Emb)] ∧
      lookupA "007" res.students = none ∧
      lookupA "007" res.embeddings = none :=
  claim_C8_amended "20250101_120000" "007" true [("007", c8Stu)]
    [("007", c8Emb)] (fun _ => true) c8Stu (by decide) rfl (by decide)


/-! ## Claim C2 — repository / embedding-index correspondence

`enroll_student` writes both collections with the same embeddings list, and
`delete_student` erases the roll from both — but `bulk_upload_students`
writes only `students.json` and never touches `embeddings.json`, so the
claimed invariant is not preserved by every repository-writing operation. -/

/-- C2 counterexample: starting from the empty (invariant-satisfying)
state, one bulk-uploaded row creates a repository identity with no
embedding-index entry at all, so the correspondence fails after a
repository-writing operation. -/
theorem claim_C2_counterexample :
    ReposIndexInv [] [] ∧
    ¬ ReposIndexInv
        (bulk_upload_students [⟨"Alice", some "007"⟩] [] "2025-01-01").1 [] := by
  constructor
  · intro r stu h
    simp [lookupA] at h
  · intro hinv
    have h1 : lookupA "007"
        (bulk_upload_students [⟨"Alice", some "007"⟩] [] "2025-01-01").1
        = some ⟨"007", "Alice", [], [], "2025-01-01"⟩ := by decide
    obtain ⟨em, hem, _⟩ := hinv "007" _ h1
    simp [lookupA] at hem

/-- C2 as amended.  The correspondence — every repository identity has an
embedding-index entry with an identical embeddings list — holds after every
successful `enroll` (which also makes the new id carry identical lists in
both collections) and is preserved by `delete`; it is **not** preserved by
`bulk_upload_students`, which writes the repository only (see the
counterexample). -/
theorem claim_C2_amended :
    (∀ (name : String) (images : List String)
        (embedOf : String → Option (List ℚ)) (createdAt : String)
        (st st2 : EnrollState) (r n : String),
      enroll_student name images embedOf createdAt st = (st2, .ok (r, n)) →
      ReposIndexInv st.students st.embeddings →
      ReposIndexInv st2.students st2.embeddings ∧
      ∃ stu em, lookupA r st2.students = some stu ∧
        lookupA r st2.embeddings = some em ∧
        em.embeddings = stu.embeddings) ∧
    (∀ (ts roll : String) (confirm : Bool)
        (students : List (String × Student))
        (embeddings : List (String × EmbRec)) (onDisk : String → Bool)
        (res : DelResult),
      delete_student ts roll confirm students embeddings onDisk = .ok res →
      ReposIndexInv students embeddings →
      ReposIndexInv res.students res.embeddings) := by
  constructor
  · intro name images embedOf createdAt st st2 r n heq hinv
    unfold enroll_student at heq
    by_cases h5 : images.length ≠ 5
    · rw [if_pos h5] at heq
      simp at heq
    · rw [if_neg h5] at heq
      by_cases htrim : strTrim name = ""
      · rw [if_pos htrim] at heq
        simp at heq
      · rw [if_neg htrim] at heq
        dsimp only at heq
        rcases hloop : enrollLoop (get_next_roll st.students) embedOf images
            0 st [] [] with ⟨stL, resL⟩
        rw [hloop] at heq
        cases resL with
        | error idx => simp at heq
        | ok pr =>
          rcases pr with ⟨embs, paths⟩
          simp only [Prod.mk.injEq, Except.ok.injEq] at heq
          obtain ⟨hst2, hr, hn⟩ := heq
          have hpres := enrollLoop_preserves_collections
            (get_next_roll st.students) embedOf images 0 st [] []
          rw [hloop] at hpres
          obtain ⟨hstu, hemb⟩ := hpres
          subst hst2
          dsimp only at hstu hemb ⊢
          constructor
          · rw [hstu, hemb]
            exact upsert_pair_preserves_inv (get_next_roll st.students)
              ⟨get_next_roll st.students, strTrim name, embs, paths, createdAt⟩
              ⟨get_next_roll st.students, strTrim name, embs⟩ hinv rfl
          · exact ⟨⟨get_next_roll st.students, strTrim name, embs, paths,
              createdAt⟩, ⟨get_next_roll st.students, strTrim name, embs⟩,
              by rw [← hr, lookupA_upsert_self],
              by rw [← hr, lookupA_upsert_self], rfl⟩
  · intro ts roll confirm students embeddings onDisk res heq hinv
    unfold delete_student at heq
    by_cases hroll : roll = ""
    · rw [if_pos hroll] at heq
      simp at heq
    · rw [if_neg hroll] at heq
      by_cases hconf : confirm = false
      · rw [if_pos hconf] at heq
        simp at heq
      · rw [if_neg hconf] at heq
        cases hlk : lookupA roll students with
        | none => rw [hlk] at heq; simp at heq
        | some stu =>
          rw [hlk] at heq
          simp only [Except.ok.injEq] at heq
          subst heq
          exact erase_pair_preserves_inv roll hinv

/-- Witness inputs for the C2 enroll branch. -/
def c2Images : List String := ["i1", "i2", "i3", "i4", "i5"]

/-- Embedding oracle that succeeds on every image with the vector `[1]`. -/
def c2EmbedOf : String → Option (List ℚ) := fun _ => some [1]

/-- The state `enroll_student` produces from the empty state. -/
def c2St1 : EnrollState :=
  ⟨[("001", ⟨"001", "Alice", [[1], [1], [1], [1], [1]],
      ["001_1.jpg", "001_2.jpg", "001_3.jpg", "001_4.jpg", "001_5.jpg"],
      "t"⟩)],
    [("001", ⟨"001", "Alice", [[1], [1], [1], [1], [1]]⟩)],
    ["001_1.jpg", "001_2.jpg", "001_3.jpg", "001_4.jpg", "001_5.jpg"]⟩

/-- C2 witness: a successful concrete enroll satisfies the correspondence
and gives the new id identical lists in both collections; a concrete
confirmed delete preserves it. -/
theorem claim_C2_amended_witness :
    (ReposIndexInv c2St1.students c2St1.embeddings ∧
      ∃ stu em, lookupA "001" c2St1.students = some stu ∧
        lookupA "001" c2St1.embeddings = some em ∧
        em.embeddings = stu.embeddings) ∧
    ReposIndexInv c8Res.students c8Res.embeddings := by
  constructor
  · exact claim_C2_amended.1 "Alice" c2Images c2EmbedOf "t" ⟨[], [], []⟩
      c2St1 "001" "Alice" rfl (fun r stu h => by simp [lookupA] at h)
  · exact claim_C2_amended.2 "20250101_120000" "007" true [("007", c8Stu)]
      [("007", c8Emb)] (fun _ => true) c8Res rfl
      (fun r stu h => by
        unfold lookupA at h
        by_cases hr : "007" = r
        · refine ⟨c8Emb, ?_, ?_⟩
          · unfold lookupA
            rw [if_pos hr]
          · rw [if_pos hr] at h
            cases h
            rfl
        · rw [if_neg hr] at h
          cases h)

/-! ## Claim C10 — failed enrollment leaves durable collections unchanged -/

theorem enrollLoop_error_spec (roll : String)
    (embedOf : String → Option (List ℚ)) (bad : String) (post : List String)
    (hbad : embedOf bad = none) (pre : List String) :
    ∀ (idx : Nat) (st : EnrollState) (embs : List (List ℚ))
        (paths : List String),
      (∀ img ∈ pre, (embedOf img).isSome) →
      enrollLoop roll embedOf (pre ++ bad :: post) idx st embs paths
        = ({ st with faces := st.faces ++ facesFrom roll idx pre.length },
            .error (idx + pre.length)) := by
  induction pre with
  | nil =>
    intro idx st embs paths hsome
    simp [enrollLoop, hbad, facesFrom]
  | cons img pre ih =>
    intro idx st embs paths hsome
    have himg : (embedOf img).isSome := hsome img (by simp)
    obtain ⟨e, he⟩ := Option.isSome_iff_exists.mp himg
    simp only [List.cons_append, enrollLoop, he, List.append_eq]
    rw [ih (idx + 1) _ _ _ (fun i hi => hsome i (by simp [hi]))]
    have hfaces : (st.faces ++ [faceFile roll idx])
          ++ facesFrom roll (idx + 1) pre.length
        = st.faces ++ facesFrom roll idx (pre.length + 1) := by
      unfold facesFrom
      rw [List.range_succ_eq_map, List.map_cons, List.map_map,
        List.append_assoc]
      congr 1
      simp only [List.singleton_append, Nat.add_zero]
      congr 1
      refine List.map_congr_left ?_
      intro j hj
      simp only [Function.comp_apply]
      congr 1
      omega
    simp only [Prod.mk.injEq, List.length_cons, Except.error.injEq]
    refine ⟨?_, by omega⟩
    dsimp only
    rw [hfaces]

/-- C10.  When enrollment of five images fails because the image at index
`k = pre.length` yields no usable embedding (all earlier ones succeeded),
the request errors out, `students.json` and `embeddings.json` are
unchanged — so the next allocated id is unchanged and no id is consumed —
but the face image files already written for the earlier indices remain in
the faces directory. -/
theorem claim_C10_failed_enroll (name : String) (pre : List String)
    (bad : String) (post : List String)
    (embedOf : String → Option (List ℚ)) (createdAt : String)
    (st : EnrollState)
    (hlen : (pre ++ bad :: post).length = 5)
    (hname : ¬ strTrim name = "")
    (hpre : ∀ img ∈ pre, (embedOf img).isSome)
    (hbad : embedOf bad = none) :
    (∃ msg, enroll_student name (pre ++ bad :: post) embedOf createdAt st
      = ({ st with
            faces := st.faces
              ++ facesFrom (get_next_roll st.students) 0 pre.length },
          .error msg)) ∧
    (enroll_student name (pre ++ bad :: post) embedOf createdAt st).1.students
      = st.students ∧
    (enroll_student name (pre ++ bad :: post) embedOf createdAt st).1.embeddings
      = st.embeddings ∧
    (enroll_student name (pre ++ bad :: post) embedOf createdAt st).1.faces
      = st.faces ++ facesFrom (get_next_roll st.students) 0 pre.length ∧
    get_next_roll
        (enroll_student name (pre ++ bad :: post) embedOf createdAt st).1.students
      = get_next_roll st.students := by
  have heq : enroll_student name (pre ++ bad :: post) embedOf createdAt st
      = ({ st with
            faces := st.faces
              ++ facesFrom (get_next_roll st.students) 0 pre.length },
          .error ("Could not detect face in image "
            ++ toString (0 + pre.length + 1))) := by
    unfold enroll_student
    rw [if_neg (by rw [hlen]; simp), if_neg hname]
    dsimp only
    rw [enrollLoop_error_spec (get_next_roll st.students) embedOf bad post
      hbad pre 0 st [] [] hpre]
  rw [heq]
  exact ⟨⟨_, rfl⟩, rfl, rfl, rfl, rfl⟩

/-- Oracle for the C10 witness: fails exactly on the third image. -/
def c10EmbedOf : String → Option (List ℚ) :=
  fun s => if s = "bad" then none else some [1]

/-- C10 witness: a concrete enrollment failing at index 2 keeps the two
collections empty, consumes no id, and leaves the two already-written face
files. -/
theorem claim_C10_failed_enroll_witness :
    ((∃ msg, enroll_student "Alice" (["i1", "i2"] ++ "bad" :: ["i4", "i5"])
        c10EmbedOf "t" ⟨[], [], []⟩
      = ({ students := [], embeddings := [],
            faces := [] ++ facesFrom "001" 0 2 }, .error msg)) ∧
    (enroll_student "Alice" (["i1", "i2"] ++ "bad" :: ["i4", "i5"])
        c10EmbedOf "t" ⟨[], [], []⟩).1.students = [] ∧
    (enroll_student "Alice" (["i1", "i2"] ++ "bad" :: ["i4", "i5"])
        c10EmbedOf "t" ⟨[], [], []⟩).1.embeddings = [] ∧
    (enroll_student "Alice" (["i1", "i2"] ++ "bad" :: ["i4", "i5"])
        c10EmbedOf "t" ⟨[], [], []⟩).1.faces = [] ++ facesFrom "001" 0 2 ∧
    get_next_roll (enroll_student "Alice"
        (["i1", "i2"] ++ "bad" :: ["i4", "i5"])
        c10EmbedOf "t" ⟨[], [], []⟩).1.students = "001") ∧
    facesFrom "001" 0 2 = ["001_1.jpg", "001_2.jpg"] := by
  constructor
  · have h := claim_C10_failed_enroll "Alice" ["i1", "i2"] "bad" ["i4", "i5"]
      c10EmbedOf "t" ⟨[], [], []⟩ (by decide) (by decide)
      (by intro img him; fin_cases him <;> decide) (by decide)
    have hroll : get_next_roll (⟨[], [], []⟩ : EnrollState).students
        = "001" := by decide
    rw [hroll] at h
    exact h
  · decide

/-! ## Claim C4 — cosine distance special values -/

/-- C4.  Two identical non-zero vectors are at distance 0, a non-zero
vector and its negation are at distance 2, and any pair in which (at least)
one vector has zero norm is at distance exactly 1 — a degenerate vector is
never a match. -/
theorem claim_C4_cosine_distance :
    (∀ x : List ℝ, l2norm x ≠ 0 → cosine_distance x x = 0) ∧
    (∀ x : List ℝ, l2norm x ≠ 0 → cosine_distance x (negVec x) = 2) ∧
    (∀ x y : List ℝ, l2norm x = 0 →
      cosine_distance x y = 1 ∧ cosine_distance y x = 1) :=
  ⟨fun _ h => cosine_distance_self h,
    fun _ h => cosine_distance_negVec h,
    fun _ y h => ⟨cosine_distance_zero_left h y,
      cosine_distance_zero_right h y⟩⟩

/-- C4 witness: the three special values at concrete vectors. -/
theorem claim_C4_cosine_distance_witness :
    cosine_distance [1, 0] [1, 0] = 0 ∧
    cosine_distance [1, 0] (negVec [1, 0]) = 2 ∧
    cosine_distance [0, 0] [1, 0] = 1 ∧
    cosine_distance [1, 0] [0, 0] = 1 := by
  have hne : l2norm [(1 : ℝ), 0] ≠ 0 := by
    simp [l2norm, dotp]
  have hz : l2norm [(0 : ℝ), 0] = 0 := by
    simp [l2norm, dotp]
  exact ⟨claim_C4_cosine_distance.1 _ hne,
    claim_C4_cosine_distance.2.1 _ hne,
    (claim_C4_cosine_distance.2.2 _ [1, 0] hz).1,
    (claim_C4_cosine_distance.2.2 _ [1, 0] hz).2⟩

/-! ## Claim C5 — the matcher decision -/

/-- The query of the concrete matching example. -/
noncomputable def qEx : List ℝ := [1, 0, 0, 0]

/-- One identity whose stored vector is at distance 1/10 from the query and
one whose stored vector is at distance 2 (> 0.5). -/
noncomputable def entriesEx : List MatchEntry :=
  [("001", "Alice", [[9, 3, 3, 1]]), ("002", "Bob", [[-1, 0, 0, 0]])]

theorem l2norm_qEx : l2norm qEx = 1 := by
  simp [qEx, l2norm, dotp]

theorem cosine_qEx_A : cosine_distance qEx [9, 3, 3, 1] = 1 / 10 := by
  have hA : l2norm [(9 : ℝ), 3, 3, 1] = 10 := by
    unfold l2norm
    rw [show dotp [(9 : ℝ), 3, 3, 1] [9, 3, 3, 1] = 100 from by
      norm_num [dotp]]
    rw [show (100 : ℝ) = 10 ^ 2 from by norm_num,
      Real.sqrt_sq (by norm_num)]
  unfold cosine_distance
  rw [l2norm_qEx, hA,
    show dotp qEx [(9 : ℝ), 3, 3, 1] = 9 from by norm_num [qEx, dotp]]
  norm_num

theorem cosine_qEx_B : cosine_distance qEx [-1, 0, 0, 0] = 2 := by
  have hB : l2norm [(-1 : ℝ), 0, 0, 0] = 1 := by
    unfold l2norm
    rw [show dotp [(-1 : ℝ), 0, 0, 0] [-1, 0, 0, 0] = 1 from by
      norm_num [dotp]]
    exact Real.sqrt_one
  unfold cosine_distance
  rw [l2norm_qEx, hB,
    show dotp qEx [(-1 : ℝ), 0, 0, 0] = -1 from by norm_num [qEx, dotp]]
  norm_num

theorem recognizeScan_ex :
    recognizeScan qEx entriesEx = some (("001", "Alice"), 1 / 10) := by
  unfold recognizeScan entriesEx
  simp only [List.foldl_cons, List.foldl_nil]
  rw [cosine_qEx_A, cosine_qEx_B]
  simp only [stepMin]
  norm_num

/-- C5.  Over a non-empty candidate scan, `recognize_face` computes the
single global minimum cosine distance with first-encountered-minimum
tie-breaking under strict `<` in stable scan order (every earlier candidate
is at strictly greater distance, every candidate at least at the minimum),
and returns that identity with its distance exactly when the minimum is
strictly below the threshold, `NoMatch` otherwise.  Concretely, with one
identity at distance 0.10 and the rest beyond 0.5, threshold 0.25 matches
it and threshold 0.05 yields `NoMatch`. -/
theorem claim_C5_recognize :
    (∀ (q : List ℝ) (entries : List MatchEntry) (threshold : ℝ),
      candidates q entries ≠ [] →
      ∃ bm bd, recognizeScan q entries = some (bm, bd) ∧
        (∃ pre suf, candidates q entries = pre ++ (bm, bd) :: suf ∧
          ∀ p ∈ pre, bd < p.2) ∧
        (∀ p ∈ candidates q entries, bd ≤ p.2) ∧
        recognize_face q entries threshold
          = if bd < threshold then some (bm, bd) else none) ∧
    recognize_face qEx entriesEx (1 / 4) = some (("001", "Alice"), 1 / 10) ∧
    recognize_face qEx entriesEx (1 / 20) = none := by
  refine ⟨?_, ?_, ?_⟩
  · intro q entries threshold hne
    have h1 : recognizeScan q entries = firstMin (candidates q entries) := by
      rw [recognizeScan_eq_foldl_candidates, foldl_stepMin_none]
    cases hm : firstMin (candidates q entries) with
    | none => exact absurd ((firstMin_eq_none_iff _).mp hm) hne
    | some x =>
      obtain ⟨pre, suf, heq, hpre, hall⟩ := firstMin_spec _ x hm
      refine ⟨x.1, x.2, ?_, ⟨pre, suf, ?_, hpre⟩, hall, ?_⟩
      · rw [h1, hm]
      · rw [heq]
      · unfold recognize_face
        rw [h1, hm]
  · unfold recognize_face
    rw [recognizeScan_ex]
    norm_num
  · unfold recognize_face
    rw [recognizeScan_ex]
    norm_num

/-- C5 witness: the scan over the concrete example is non-empty and the
matcher contract holds there. -/
theorem claim_C5_recognize_witness :
    candidates qEx entriesEx ≠ [] ∧
    (∃ bm bd, recognizeScan qEx entriesEx = some (bm, bd) ∧
      (∃ pre suf, candidates qEx entriesEx = pre ++ (bm, bd) :: suf ∧
        ∀ p ∈ pre, bd < p.2) ∧
      (∀ p ∈ candidates qEx entriesEx, bd ≤ p.2) ∧
      recognize_face qEx entriesEx (1 / 4)
        = if bd < 1 / 4 then some (bm, bd) else none) := by
  have hne : candidates qEx entriesEx ≠ [] := by
    simp [candidates, entriesEx]
  exact ⟨hne, claim_C5_recognize.1 qEx entriesEx (1 / 4) hne⟩

end SmartAttendance
